import Mathlib

/-!
Shallow embedding of `src/dynamic_array/dynamic_array.h` (the generic dynamic
array defined by `DEFINE_DYNAMIC_ARRAY(T)`), instantiated at element type `ℤ`.

Modelling conventions:
- C `int` fields (`size`, `capacity`) are `ℤ`; the C `float` field `load` is
  modelled as an exact rational `ℚ`.  The load comparisons in the source
  (`load >= EXPANSION_POINT`, `load <= CONTRACTION_POINT`) are modelled as the
  corresponding exact rational comparisons; the spec itself states load only
  "within floating-point rounding".
- The backing buffer `T *array` is modelled as a total map `ℤ → ℤ`; the live
  region is `[0, size)` and slots outside it hold indeterminate ("garbage")
  values.  An access outside `[0, capacity)` is representable (the map is
  total), mirroring the fact that the C code performs no bounds checking.
- `malloc` is modelled by an explicit allocation outcome `Alloc` threaded into
  each operation that may allocate: `none` means the allocation fails,
  `some junk` means it succeeds and returns a fresh buffer whose
  indeterminate initial contents are the map `junk`.
- Each C `for` loop is embedded as a structural recursion on the number of
  iterations executed, writing the same indices with the same values, in the
  same order, as the source loop.
- C return codes are kept: `0` for success, `1` for allocation failure.
-/

/-- The struct `DynamicArray_T` from `DEFINE_DYNAMIC_ARRAY_STRUCT(T)`:
fields `load`, `size`, `capacity`, `array`. -/
structure DynArray where
  load : ℚ
  size : ℤ
  capacity : ℤ
  array : ℤ → ℤ

/-- Outcome of a `malloc` call: `none` is an allocation failure; `some junk`
is a fresh buffer whose indeterminate initial contents are `junk`. -/
abbrev Alloc := Option (ℤ → ℤ)

/-- `static const int INIT_CAPACITY = 10`. -/
def INIT_CAPACITY : ℤ := 10

/-- `static const float EXPANSION_POINT = 1.0`. -/
def EXPANSION_POINT : ℚ := 1

/-- `static const float CONTRACTION_POINT = 0.3`. -/
def CONTRACTION_POINT : ℚ := 3/10

/-- `static const float EXPANSION_FACTOR = 2.0`. -/
def EXPANSION_FACTOR : ℚ := 2

/-- `static const float CONTRACTION_FACTOR = 0.5`. -/
def CONTRACTION_FACTOR : ℚ := 1/2

/-- `dynamic_array_T_recalc_load`: `self->load = ((float)self->size) /
((float)self->capacity)`. -/
def dynamic_array_recalc_load (self : DynArray) : DynArray :=
  { self with load := (self.size : ℚ) / (self.capacity : ℚ) }

/-- `dynamic_array_T_construct` with a successful allocation: capacity
`INIT_CAPACITY`, size 0, load 0; the fresh buffer contents are the
indeterminate map `junk` ("The elements of the internal array will be
random"). -/
def dynamic_array_construct (junk : ℤ → ℤ) : DynArray :=
  { load := 0, size := 0, capacity := INIT_CAPACITY, array := junk }

/-- The copy loop shared by `expand` and `contract`:
`for (idx = 0; idx <= self->size; idx++) new_array[idx] = self->array[idx]`.
`n` is the number of iterations executed (`size + 1` when `size ≥ 0`);
iteration `k` writes index `k` of the destination with `old k`. -/
def copy_loop (old dst : ℤ → ℤ) : Nat → (ℤ → ℤ)
  | 0 => dst
  | n + 1 => fun j => if j = (n : ℤ) then old (n : ℤ) else copy_loop old dst n j

/-- `dynamic_array_T_expand`: allocate a buffer of capacity
`EXPANSION_FACTOR * capacity` (the C int cast truncates; for the nonnegative
values involved this is the floor), copy indices `0..size` into it (note the
source loop bound `idx <= self->size` copies one slot past the live region),
install it, update `capacity` and recalculate `load`.  Returns 1 and leaves
the array unmodified when the allocation fails. -/
def dynamic_array_expand (self : DynArray) (alloc : Alloc) : ℤ × DynArray :=
  match alloc with
  | none => (1, self)
  | some junk =>
    let new_capacity : ℤ := Int.floor (EXPANSION_FACTOR * (self.capacity : ℚ))
    let new_array := copy_loop self.array junk (self.size + 1).toNat
    (0, dynamic_array_recalc_load
      { self with array := new_array, capacity := new_capacity })

/-- `dynamic_array_T_contract`: allocate a buffer of capacity
`CONTRACTION_FACTOR * capacity` (truncated), copy indices `0..size` into it,
install it, update `capacity` and recalculate `load`.  Returns 1 and leaves
the array unmodified when the allocation fails.  The C source then executes
`free(new_array)` (instead of freeing the old buffer) before installing
`new_array` — a use-after-free at the memory level; at the value level the
installed buffer is modelled as still holding the copied contents.  No claim
settled in this development depends on post-contraction buffer contents. -/
def dynamic_array_contract (self : DynArray) (alloc : Alloc) : ℤ × DynArray :=
  match alloc with
  | none => (1, self)
  | some junk =>
    let new_capacity : ℤ := Int.floor (CONTRACTION_FACTOR * (self.capacity : ℚ))
    let new_array := copy_loop self.array junk (self.size + 1).toNat
    (0, dynamic_array_recalc_load
      { self with array := new_array, capacity := new_capacity })

/-- The shift loop of `dynamic_array_T_insert_elem`:
`for (idx = self->size; idx > i; idx--) array[idx] = array[idx - 1]`.
`k` counts executed iterations; iteration `k` writes index `size - k` with the
original value at `size - k - 1` (each source slot is read before the next
iteration overwrites it, so every read sees the original array). -/
def insert_shift_loop (a : ℤ → ℤ) (size : ℤ) : Nat → (ℤ → ℤ)
  | 0 => a
  | k + 1 => fun j =>
      if j = size - (k : ℤ) then a (size - (k : ℤ) - 1)
      else insert_shift_loop a size k j

/-- The unchecked shift-and-insert part of `dynamic_array_T_insert_elem`
(everything after the expansion check).  The loop runs `size - i` iterations
when `i < size` (none otherwise), leaving its counter `idx` at `i`
(respectively at `size`), and `array[idx] = elem` writes at that final
counter value.  Then `size += 1` and the load is recalculated. -/
def insert_shift (self : DynArray) (elem i : ℤ) : ℤ × DynArray :=
  let a1 := insert_shift_loop self.array self.size (self.size - i).toNat
  let widx : ℤ := if i < self.size then i else self.size
  let a2 : ℤ → ℤ := fun j => if j = widx then elem else a1 j
  (0, dynamic_array_recalc_load { self with array := a2, size := self.size + 1 })

/-- `dynamic_array_T_insert_elem`: if `load >= EXPANSION_POINT` the array is
expanded first and an allocation failure code is passed up (leaving the array
unmodified); otherwise, and after a successful expansion, the unchecked
shift-and-insert runs.  The index is never validated. -/
def dynamic_array_insert_elem (self : DynArray) (elem i : ℤ) (alloc : Alloc) :
    ℤ × DynArray :=
  if EXPANSION_POINT ≤ self.load then
    let r := dynamic_array_expand self alloc
    if 0 < r.1 then r else insert_shift r.2 elem i
  else insert_shift self elem i

/-- `dynamic_array_T_add`: `insert_elem(self, elem, self->size)`. -/
def dynamic_array_add (self : DynArray) (elem : ℤ) (alloc : Alloc) :
    ℤ × DynArray :=
  dynamic_array_insert_elem self elem self.size alloc

/-- `dynamic_array_T_add_at`: `insert_elem(self, elem, i)`. -/
def dynamic_array_add_at (self : DynArray) (elem i : ℤ) (alloc : Alloc) :
    ℤ × DynArray :=
  dynamic_array_insert_elem self elem i alloc

/-- The shift loop of `dynamic_array_T_delete_elem`:
`for (idx = i + 1; idx < self->size; idx++) array[idx - 1] = array[idx]`.
`k` counts executed iterations; iteration `k` writes index `i + k` with the
original value at `i + k + 1` (reads run ahead of writes, so every read sees
the original array). -/
def delete_shift_loop (a : ℤ → ℤ) (i : ℤ) : Nat → (ℤ → ℤ)
  | 0 => a
  | k + 1 => fun j =>
      if j = i + (k : ℤ) then a (i + (k : ℤ) + 1)
      else delete_shift_loop a i k j

/-- `dynamic_array_T_delete_elem`: shift `[i+1, size)` down one slot, then —
with `load` and `size` still holding their pre-removal values — if
`load <= CONTRACTION_POINT && capacity > INIT_CAPACITY`, return the result of
`contract` directly (so in that branch `size` is never decremented and the
allocation-failure code of `contract` is passed up); otherwise decrement
`size` and recalculate the load.  The index is never validated. -/
def dynamic_array_delete_elem (self : DynArray) (i : ℤ) (alloc : Alloc) :
    ℤ × DynArray :=
  let a1 := delete_shift_loop self.array i (self.size - (i + 1)).toNat
  let s1 : DynArray := { self with array := a1 }
  if s1.load ≤ CONTRACTION_POINT ∧ INIT_CAPACITY < s1.capacity then
    dynamic_array_contract s1 alloc
  else
    (0, dynamic_array_recalc_load { s1 with size := s1.size - 1 })

/-- `dynamic_array_T_remove_at`: `delete_elem(self, i)`. -/
def dynamic_array_remove_at (self : DynArray) (i : ℤ) (alloc : Alloc) :
    ℤ × DynArray :=
  dynamic_array_delete_elem self i alloc

/-- The scan loop of `dynamic_array_T_remove`:
`for (idx = 0; idx < self->size; idx++) if (array[idx] == elem) ...`.
Returns the first index in `[idx, size)` (within the given iteration budget,
`size.toNat` at the top-level call) whose slot equals `elem`. -/
def remove_scan (a : ℤ → ℤ) (elem size : ℤ) : ℤ → Nat → Option ℤ
  | _, 0 => none
  | idx, fuel + 1 =>
    if idx < size then
      if a idx = elem then some idx else remove_scan a elem size (idx + 1) fuel
    else none

/-- `dynamic_array_T_remove`: linear scan from index 0; on the first slot
equal to `elem`, return `delete_elem` at that index; if the scan exhausts,
return 0 with the array untouched. -/
def dynamic_array_remove (self : DynArray) (elem : ℤ) (alloc : Alloc) :
    ℤ × DynArray :=
  match remove_scan self.array elem self.size 0 self.size.toNat with
  | some idx => dynamic_array_delete_elem self idx alloc
  | none => (0, self)

/-- The numeric part of the validity condition in the struct's documentation
("Its size is how many elements it contains... Its load is its size divided
by its capacity"), together with the spec's data-model invariants
`0 ≤ length ≤ capacity` and `capacity ≥ INIT_CAPACITY`. -/
def Valid (s : DynArray) : Prop :=
  0 ≤ s.size ∧ s.size ≤ s.capacity ∧ INIT_CAPACITY ≤ s.capacity ∧
    s.load = (s.size : ℚ) / (s.capacity : ℚ)

/-- The public mutating operations quantified over by the spec's sequence
invariant: `Add`, `InsertAt`, `RemoveAt`, `RemoveValue`. -/
inductive Op where
  | add (v : ℤ)
  | addAt (v i : ℤ)
  | removeAt (i : ℤ)
  | removeVal (v : ℤ)

/-- Run one operation against the embedded code. -/
def applyOp (s : DynArray) (alloc : Alloc) : Op → ℤ × DynArray
  | .add v => dynamic_array_add s v alloc
  | .addAt v i => dynamic_array_add_at s v i alloc
  | .removeAt i => dynamic_array_remove_at s i alloc
  | .removeVal v => dynamic_array_remove s v alloc

/-- The documented index precondition of each operation (`0 <= i <= size` for
insertion, `0 <= i < size` for removal). -/
def OpOk (s : DynArray) : Op → Prop
  | .add _ => True
  | .addAt _ i => 0 ≤ i ∧ i ≤ s.size
  | .removeAt i => 0 ≤ i ∧ i < s.size
  | .removeVal _ => True

/-- States produced by `construct` followed by any sequence of in-contract
operations all of whose allocations succeed (so no operation fails). -/
inductive Reachable : DynArray → Prop
  | construct (junk : ℤ → ℤ) : Reachable (dynamic_array_construct junk)
  | step (s : DynArray) (op : Op) (junk : ℤ → ℤ) : Reachable s → OpOk s op →
      Reachable (applyOp s (some junk) op).2

/-! ### Closed forms of the embedded loops -/

lemma copy_loop_apply (old dst : ℤ → ℤ) (n : Nat) (j : ℤ) :
    copy_loop old dst n j = if 0 ≤ j ∧ j < (n : ℤ) then old j else dst j := by
  induction n with
  | zero =>
    show dst j = _
    split_ifs with hc
    · exact absurd hc (by push_cast; omega)
    · rfl
  | succ n ih =>
    show (if j = (n : ℤ) then old (n : ℤ) else copy_loop old dst n j) = _
    rcases eq_or_ne j (n : ℤ) with hj | hj
    · have h : 0 ≤ j ∧ j < ((n + 1 : Nat) : ℤ) := by push_cast; omega
      rw [if_pos hj, if_pos h, hj]
    · rw [if_neg hj, ih]
      have h : (0 ≤ j ∧ j < ((n + 1 : Nat) : ℤ)) ↔ (0 ≤ j ∧ j < (n : ℤ)) := by
        push_cast; omega
      rw [if_congr h rfl rfl]

lemma insert_shift_loop_apply (a : ℤ → ℤ) (size : ℤ) (k : Nat) (j : ℤ) :
    insert_shift_loop a size k j =
      if size - (k : ℤ) < j ∧ j ≤ size then a (j - 1) else a j := by
  induction k with
  | zero =>
    show a j = _
    split_ifs with hc
    · exact absurd hc (by push_cast; omega)
    · rfl
  | succ k ih =>
    show (if j = size - (k : ℤ) then a (size - (k : ℤ) - 1)
          else insert_shift_loop a size k j) = _
    rcases eq_or_ne j (size - (k : ℤ)) with hj | hj
    · have h : size - ((k + 1 : Nat) : ℤ) < j ∧ j ≤ size := by push_cast; omega
      rw [if_pos hj, if_pos h, hj]
    · rw [if_neg hj, ih]
      have h : (size - ((k + 1 : Nat) : ℤ) < j ∧ j ≤ size) ↔
          (size - (k : ℤ) < j ∧ j ≤ size) := by push_cast; omega
      rw [if_congr h rfl rfl]

lemma delete_shift_loop_apply (a : ℤ → ℤ) (i : ℤ) (k : Nat) (j : ℤ) :
    delete_shift_loop a i k j =
      if i ≤ j ∧ j < i + (k : ℤ) then a (j + 1) else a j := by
  induction k with
  | zero =>
    show a j = _
    split_ifs with hc
    · exact absurd hc (by push_cast; omega)
    · rfl
  | succ k ih =>
    show (if j = i + (k : ℤ) then a (i + (k : ℤ) + 1)
          else delete_shift_loop a i k j) = _
    rcases eq_or_ne j (i + (k : ℤ)) with hj | hj
    · have h : i ≤ j ∧ j < i + ((k + 1 : Nat) : ℤ) := by push_cast; omega
      rw [if_pos hj, if_pos h, hj]
    · rw [if_neg hj, ih]
      have h : (i ≤ j ∧ j < i + ((k + 1 : Nat) : ℤ)) ↔
          (i ≤ j ∧ j < i + (k : ℤ)) := by push_cast; omega
      rw [if_congr h rfl rfl]

/-! ### The scan loop of `remove` -/

lemma remove_scan_eq_none (a : ℤ → ℤ) (v size : ℤ) :
    ∀ (fuel : Nat) (idx : ℤ), (∀ j, idx ≤ j → j < size → a j ≠ v) →
      remove_scan a v size idx fuel = none := by
  intro fuel
  induction fuel with
  | zero => intro idx _; rfl
  | succ fuel ih =>
    intro idx h
    show (if idx < size then
        (if a idx = v then some idx else remove_scan a v size (idx + 1) fuel)
      else none) = none
    rcases lt_or_le idx size with hlt | hge
    · rw [if_pos hlt, if_neg (h idx le_rfl hlt)]
      exact ih (idx + 1) fun j h1 h2 => h j (by omega) h2
    · rw [if_neg (not_lt.mpr hge)]

lemma remove_scan_eq_some (a : ℤ → ℤ) (v size : ℤ) :
    ∀ (fuel : Nat) (idx0 idx : ℤ), idx0 ≤ idx → idx < size → a idx = v →
      (∀ j, idx0 ≤ j → j < idx → a j ≠ v) → idx < idx0 + (fuel : ℤ) →
      remove_scan a v size idx0 fuel = some idx := by
  intro fuel
  induction fuel with
  | zero =>
    intro idx0 idx h1 _ _ _ h5
    exact absurd h5 (by push_cast; omega)
  | succ fuel ih =>
    intro idx0 idx h1 h2 h3 h4 h5
    have hlt : idx0 < size := lt_of_le_of_lt h1 h2
    show (if idx0 < size then
        (if a idx0 = v then some idx0 else remove_scan a v size (idx0 + 1) fuel)
      else none) = some idx
    rw [if_pos hlt]
    rcases eq_or_ne idx idx0 with he | hne
    · rw [if_pos (he ▸ h3), he]
    · have hne0 : a idx0 ≠ v := h4 idx0 le_rfl (by omega)
      rw [if_neg hne0]
      exact ih (idx0 + 1) idx (by omega) h2 h3
        (fun j hj1 hj2 => h4 j (by omega) hj2) (by push_cast at h5 ⊢; omega)

lemma remove_scan_some_bounds (a : ℤ → ℤ) (v size : ℤ) :
    ∀ (fuel : Nat) (idx0 idx : ℤ),
      remove_scan a v size idx0 fuel = some idx →
      idx0 ≤ idx ∧ idx < size ∧ a idx = v := by
  intro fuel
  induction fuel with
  | zero => intro idx0 idx h; exact absurd h (by simp [remove_scan])
  | succ fuel ih =>
    intro idx0 idx h
    rw [show remove_scan a v size idx0 (fuel + 1) = (if idx0 < size then
        (if a idx0 = v then some idx0 else remove_scan a v size (idx0 + 1) fuel)
      else none) from rfl] at h
    rcases lt_or_le idx0 size with hlt | hge
    · rw [if_pos hlt] at h
      rcases eq_or_ne (a idx0) v with he | hne
      · rw [if_pos he] at h
        obtain rfl : idx0 = idx := by simpa using h
        exact ⟨le_rfl, hlt, he⟩
      · rw [if_neg hne] at h
        obtain ⟨ha, hb, hc⟩ := ih (idx0 + 1) idx h
        exact ⟨by omega, hb, hc⟩
    · rw [if_neg (not_lt.mpr hge)] at h
      exact absurd h (by simp)

/-! ### Field-level behaviour of the allocation-dependent helpers -/

lemma expansion_capacity_eq (c : ℤ) :
    Int.floor (EXPANSION_FACTOR * (c : ℚ)) = 2 * c := by
  rw [show EXPANSION_FACTOR * (c : ℚ) = ((2 * c : ℤ) : ℚ) by
    unfold EXPANSION_FACTOR; push_cast; ring]
  exact Int.floor_intCast _

lemma contraction_capacity_eq (c : ℤ) (h : 2 ∣ c) :
    Int.floor (CONTRACTION_FACTOR * (c : ℚ)) = c / 2 := by
  obtain ⟨d, rfl⟩ := h
  rw [show CONTRACTION_FACTOR * ((2 * d : ℤ) : ℚ) = ((d : ℤ) : ℚ) by
    unfold CONTRACTION_FACTOR; push_cast; ring]
  rw [Int.floor_intCast]
  omega

lemma expand_some_fields (s : DynArray) (junk : ℤ → ℤ) :
    (dynamic_array_expand s (some junk)).1 = 0 ∧
    (dynamic_array_expand s (some junk)).2.size = s.size ∧
    (dynamic_array_expand s (some junk)).2.capacity = 2 * s.capacity := by
  refine ⟨rfl, rfl, ?_⟩
  show Int.floor (EXPANSION_FACTOR * (s.capacity : ℚ)) = 2 * s.capacity
  exact expansion_capacity_eq s.capacity

lemma expand_some_array (s : DynArray) (junk : ℤ → ℤ) (j : ℤ)
    (h0 : 0 ≤ j) (h1 : j ≤ s.size) :
    (dynamic_array_expand s (some junk)).2.array j = s.array j := by
  show copy_loop s.array junk (s.size + 1).toNat j = s.array j
  rw [copy_loop_apply, if_pos (by omega)]

lemma insert_shift_spec (s : DynArray) (v i : ℤ) (h0 : 0 ≤ i) (h1 : i ≤ s.size) :
    (insert_shift s v i).1 = 0 ∧
    (insert_shift s v i).2.size = s.size + 1 ∧
    (insert_shift s v i).2.capacity = s.capacity ∧
    (insert_shift s v i).2.load = ((s.size + 1 : ℤ) : ℚ) / (s.capacity : ℚ) ∧
    (insert_shift s v i).2.array i = v ∧
    (∀ j, j < i → (insert_shift s v i).2.array j = s.array j) ∧
    (∀ j, i ≤ j → j < s.size →
      (insert_shift s v i).2.array (j + 1) = s.array j) := by
  simp only [insert_shift, dynamic_array_recalc_load]
  have hw : (if i < s.size then i else s.size) = i := by
    split_ifs with h <;> omega
  rw [hw]
  refine ⟨trivial, trivial, trivial, trivial, by rw [if_pos rfl], ?_, ?_⟩
  · intro j hj
    rw [if_neg (by omega), insert_shift_loop_apply, if_neg (by omega)]
  · intro j hji hjs
    rw [if_neg (by omega), insert_shift_loop_apply, if_pos (by omega)]
    rw [show j + 1 - 1 = j by ring]

lemma insert_elem_of_expand (s : DynArray) (v i : ℤ) (junk : ℤ → ℤ)
    (hexp : EXPANSION_POINT ≤ s.load) :
    dynamic_array_insert_elem s v i (some junk) =
      insert_shift (dynamic_array_expand s (some junk)).2 v i := by
  rw [dynamic_array_insert_elem, if_pos hexp]
  show (if (0 : ℤ) < (dynamic_array_expand s (some junk)).1
    then dynamic_array_expand s (some junk)
    else insert_shift (dynamic_array_expand s (some junk)).2 v i) = _
  rw [show (dynamic_array_expand s (some junk)).1 = 0 from rfl]
  norm_num

lemma insert_elem_of_no_expand (s : DynArray) (v i : ℤ) (alloc : Alloc)
    (hexp : ¬EXPANSION_POINT ≤ s.load) :
    dynamic_array_insert_elem s v i alloc = insert_shift s v i := by
  rw [dynamic_array_insert_elem, if_neg hexp]

lemma insert_elem_some_spec (s : DynArray) (v i : ℤ) (junk : ℤ → ℤ)
    (h0 : 0 ≤ i) (h1 : i ≤ s.size) :
    (dynamic_array_insert_elem s v i (some junk)).1 = 0 ∧
    (dynamic_array_insert_elem s v i (some junk)).2.size = s.size + 1 ∧
    (dynamic_array_insert_elem s v i (some junk)).2.capacity =
      (if EXPANSION_POINT ≤ s.load then 2 * s.capacity else s.capacity) ∧
    (dynamic_array_insert_elem s v i (some junk)).2.load =
      ((s.size + 1 : ℤ) : ℚ) /
        (((dynamic_array_insert_elem s v i (some junk)).2.capacity : ℤ) : ℚ) ∧
    (dynamic_array_insert_elem s v i (some junk)).2.array i = v ∧
    (∀ j, 0 ≤ j → j < i →
      (dynamic_array_insert_elem s v i (some junk)).2.array j = s.array j) ∧
    (∀ j, i ≤ j → j < s.size →
      (dynamic_array_insert_elem s v i (some junk)).2.array (j + 1) =
        s.array j) := by
  by_cases hexp : EXPANSION_POINT ≤ s.load
  · rw [insert_elem_of_expand s v i junk hexp, if_pos hexp]
    have hsz : (dynamic_array_expand s (some junk)).2.size = s.size := rfl
    have hcap := (expand_some_fields s junk).2.2
    obtain ⟨c1, c2, c3, c4, c5, c6, c7⟩ :=
      insert_shift_spec (dynamic_array_expand s (some junk)).2 v i h0
        (by rw [hsz]; exact h1)
    rw [hsz] at c2 c4 c7
    rw [hcap] at c3
    refine ⟨c1, c2, c3, ?_, c5, ?_, ?_⟩
    · rw [c4, hcap, c3]
    · intro j hj0 hji
      rw [c6 j hji, expand_some_array s junk j hj0 (by omega)]
    · intro j hji hjs
      rw [c7 j hji hjs, expand_some_array s junk j (by omega) (by omega)]
  · rw [insert_elem_of_no_expand s v i (some junk) hexp, if_neg hexp]
    obtain ⟨c1, c2, c3, c4, c5, c6, c7⟩ := insert_shift_spec s v i h0 h1
    refine ⟨c1, c2, c3, ?_, c5, fun j _ hji => c6 j hji, c7⟩
    rw [c4, c3]

lemma delete_elem_eq (s : DynArray) (i : ℤ) (alloc : Alloc) :
    dynamic_array_delete_elem s i alloc =
      if s.load ≤ CONTRACTION_POINT ∧ INIT_CAPACITY < s.capacity then
        dynamic_array_contract
          { s with array := delete_shift_loop s.array i (s.size - (i + 1)).toNat }
          alloc
      else
        (0, dynamic_array_recalc_load
          { s with array := delete_shift_loop s.array i (s.size - (i + 1)).toNat,
                   size := s.size - 1 }) := rfl

lemma contract_some_fields (s : DynArray) (junk : ℤ → ℤ) :
    (dynamic_array_contract s (some junk)).1 = 0 ∧
    (dynamic_array_contract s (some junk)).2.size = s.size ∧
    (dynamic_array_contract s (some junk)).2.capacity =
      Int.floor (CONTRACTION_FACTOR * (s.capacity : ℚ)) ∧
    (dynamic_array_contract s (some junk)).2.load =
      (s.size : ℚ) /
        ((Int.floor (CONTRACTION_FACTOR * (s.capacity : ℚ)) : ℤ) : ℚ) :=
  ⟨rfl, rfl, rfl, rfl⟩

lemma delete_elem_nocontract_spec (s : DynArray) (i : ℤ) (alloc : Alloc)
    (h0 : 0 ≤ i) (h1 : i < s.size)
    (hnc : ¬(s.load ≤ CONTRACTION_POINT ∧ INIT_CAPACITY < s.capacity)) :
    (dynamic_array_delete_elem s i alloc).1 = 0 ∧
    (dynamic_array_delete_elem s i alloc).2.size = s.size - 1 ∧
    (dynamic_array_delete_elem s i alloc).2.capacity = s.capacity ∧
    (dynamic_array_delete_elem s i alloc).2.load =
      ((s.size - 1 : ℤ) : ℚ) / (s.capacity : ℚ) ∧
    (∀ j, j < i → (dynamic_array_delete_elem s i alloc).2.array j = s.array j) ∧
    (∀ j, i ≤ j → j < s.size - 1 →
      (dynamic_array_delete_elem s i alloc).2.array j = s.array (j + 1)) := by
  rw [delete_elem_eq, if_neg hnc]
  refine ⟨rfl, rfl, rfl, rfl, ?_, ?_⟩
  · intro j hj
    show delete_shift_loop s.array i (s.size - (i + 1)).toNat j = s.array j
    rw [delete_shift_loop_apply, if_neg (by omega)]
  · intro j hj1 hj2
    show delete_shift_loop s.array i (s.size - (i + 1)).toNat j = s.array (j + 1)
    rw [delete_shift_loop_apply, if_pos (by omega)]

lemma delete_elem_contract_some_spec (s : DynArray) (i : ℤ) (junk : ℤ → ℤ)
    (hc : s.load ≤ CONTRACTION_POINT) (hcap : INIT_CAPACITY < s.capacity) :
    (dynamic_array_delete_elem s i (some junk)).1 = 0 ∧
    (dynamic_array_delete_elem s i (some junk)).2.size = s.size ∧
    (dynamic_array_delete_elem s i (some junk)).2.capacity =
      Int.floor (CONTRACTION_FACTOR * (s.capacity : ℚ)) ∧
    (dynamic_array_delete_elem s i (some junk)).2.load =
      (s.size : ℚ) /
        ((Int.floor (CONTRACTION_FACTOR * (s.capacity : ℚ)) : ℤ) : ℚ) := by
  rw [delete_elem_eq, if_pos ⟨hc, hcap⟩]
  exact ⟨rfl, rfl, rfl, rfl⟩

lemma remove_not_found (s : DynArray) (v : ℤ) (alloc : Alloc)
    (h : ∀ j, 0 ≤ j → j < s.size → s.array j ≠ v) :
    dynamic_array_remove s v alloc = (0, s) := by
  rw [dynamic_array_remove, remove_scan_eq_none s.array v s.size s.size.toNat 0 h]

lemma remove_found (s : DynArray) (v : ℤ) (alloc : Alloc) (idx : ℤ)
    (hfound : remove_scan s.array v s.size 0 s.size.toNat = some idx) :
    dynamic_array_remove s v alloc = dynamic_array_delete_elem s idx alloc := by
  rw [dynamic_array_remove, hfound]

/-! ### The inductive invariant of reachable states -/

/-- Inductive invariant: the numeric validity facts together with the shape
`capacity = INIT_CAPACITY * 2 ^ k` maintained by doubling and halving. -/
def StateInv (s : DynArray) : Prop :=
  0 ≤ s.size ∧ s.size ≤ s.capacity ∧
    s.load = (s.size : ℚ) / (s.capacity : ℚ) ∧
    ∃ k : ℕ, s.capacity = INIT_CAPACITY * 2 ^ k

lemma capacity_pos_of_pow (s : DynArray) (k : ℕ)
    (hcap : s.capacity = INIT_CAPACITY * 2 ^ k) : 0 < s.capacity := by
  rw [hcap]; unfold INIT_CAPACITY; positivity

lemma init_le_of_pow (s : DynArray) (k : ℕ)
    (hcap : s.capacity = INIT_CAPACITY * 2 ^ k) :
    INIT_CAPACITY ≤ s.capacity := by
  have h1 : (1 : ℤ) ≤ 2 ^ k := by
    have h0 : (0 : ℤ) < 2 ^ k := by positivity
    linarith
  have h2 := mul_le_mul_of_nonneg_left h1
    (by unfold INIT_CAPACITY; norm_num : (0 : ℤ) ≤ INIT_CAPACITY)
  rw [hcap]; simpa using h2

lemma inv_construct (junk : ℤ → ℤ) : StateInv (dynamic_array_construct junk) := by
  refine ⟨le_rfl, ?_, ?_, ⟨0, ?_⟩⟩
  · show (0 : ℤ) ≤ INIT_CAPACITY
    unfold INIT_CAPACITY; norm_num
  · show (0 : ℚ) = ((0 : ℤ) : ℚ) / ((INIT_CAPACITY : ℤ) : ℚ)
    norm_num
  · show INIT_CAPACITY = INIT_CAPACITY * 2 ^ 0
    ring

lemma inv_insert (s : DynArray) (v i : ℤ) (junk : ℤ → ℤ)
    (hinv : StateInv s) (h0 : 0 ≤ i) (h1 : i ≤ s.size) :
    StateInv (dynamic_array_insert_elem s v i (some junk)).2 := by
  obtain ⟨hs0, hsc, hload, k, hcap⟩ := hinv
  have hcp : (0 : ℤ) < s.capacity := capacity_pos_of_pow s k hcap
  obtain ⟨c1, c2, c3, c4, c5, c6, c7⟩ := insert_elem_some_spec s v i junk h0 h1
  by_cases hexp : EXPANSION_POINT ≤ s.load
  · rw [if_pos hexp] at c3
    refine ⟨by omega, by rw [c2, c3]; omega, ?_, ⟨k + 1, ?_⟩⟩
    · rw [c4, c2]
    · rw [c3, hcap]; ring
  · rw [if_neg hexp] at c3
    have hlt : s.size < s.capacity := by
      have hq : (s.size : ℚ) / (s.capacity : ℚ) < 1 := by
        rw [← hload]
        unfold EXPANSION_POINT at hexp
        exact lt_of_not_le hexp
      have hq2 : (s.size : ℚ) < (s.capacity : ℚ) := by
        rw [div_lt_one (by exact_mod_cast hcp)] at hq
        exact hq
      exact_mod_cast hq2
    refine ⟨by omega, by rw [c2, c3]; omega, ?_, ⟨k, by rw [c3, hcap]⟩⟩
    rw [c4, c2]

lemma inv_delete (s : DynArray) (i : ℤ) (junk : ℤ → ℤ)
    (hinv : StateInv s) (h0 : 0 ≤ i) (h1 : i < s.size) :
    StateInv (dynamic_array_delete_elem s i (some junk)).2 := by
  obtain ⟨hs0, hsc, hload, k, hcap⟩ := hinv
  have hcp : (0 : ℤ) < s.capacity := capacity_pos_of_pow s k hcap
  by_cases hc : s.load ≤ CONTRACTION_POINT ∧ INIT_CAPACITY < s.capacity
  · obtain ⟨c1, c2, c3, c4⟩ := delete_elem_contract_some_spec s i junk hc.1 hc.2
    have hk : 1 ≤ k := by
      by_contra hk0
      have : k = 0 := by omega
      rw [this, pow_zero, mul_one] at hcap
      rw [hcap] at hc
      exact absurd hc.2 (lt_irrefl _)
    have hsplit : s.capacity = 2 * (INIT_CAPACITY * 2 ^ (k - 1)) := by
      rw [hcap]
      conv_lhs => rw [show k = (k - 1) + 1 by omega]
      ring
    have hdvd : 2 ∣ s.capacity := ⟨INIT_CAPACITY * 2 ^ (k - 1), hsplit⟩
    have hhalf : Int.floor (CONTRACTION_FACTOR * (s.capacity : ℚ)) =
        INIT_CAPACITY * 2 ^ (k - 1) := by
      rw [contraction_capacity_eq s.capacity hdvd, hsplit]
      omega
    have hsz3 : 10 * s.size ≤ 3 * s.capacity := by
      have hq := hc.1
      rw [hload] at hq
      unfold CONTRACTION_POINT at hq
      rw [div_le_div_iff (by exact_mod_cast hcp) (by norm_num)] at hq
      have hq2 : (s.size : ℚ) * 10 ≤ 3 * (s.capacity : ℚ) := hq
      have hq3 : ((s.size * 10 : ℤ) : ℚ) ≤ ((3 * s.capacity : ℤ) : ℚ) := by
        push_cast; linarith
      have hq4 : s.size * 10 ≤ 3 * s.capacity := by exact_mod_cast hq3
      omega
    have hlin : s.capacity = 2 * (INIT_CAPACITY * 2 ^ (k - 1)) := hsplit
    refine ⟨by omega, ?_, ?_, ⟨k - 1, by rw [c3, hhalf]⟩⟩
    · rw [c2, c3, hhalf]; omega
    · rw [c4, c2, c3]
  · obtain ⟨c1, c2, c3, c4, c5, c6⟩ :=
      delete_elem_nocontract_spec s i (some junk) h0 h1 hc
    refine ⟨by omega, by rw [c2, c3]; omega, ?_, ⟨k, by rw [c3, hcap]⟩⟩
    rw [c4, c2, c3]

lemma inv_remove (s : DynArray) (v : ℤ) (junk : ℤ → ℤ) (hinv : StateInv s) :
    StateInv (dynamic_array_remove s v (some junk)).2 := by
  cases hscan : remove_scan s.array v s.size 0 s.size.toNat with
  | none =>
    rw [dynamic_array_remove, hscan]
    exact hinv
  | some idx =>
    obtain ⟨hb1, hb2, hb3⟩ := remove_scan_some_bounds s.array v s.size _ 0 idx hscan
    rw [remove_found s v (some junk) idx hscan]
    exact inv_delete s idx junk hinv hb1 hb2

lemma inv_applyOp (s : DynArray) (op : Op) (junk : ℤ → ℤ)
    (hinv : StateInv s) (hok : OpOk s op) : StateInv (applyOp s (some junk) op).2 := by
  cases op with
  | add v => exact inv_insert s v s.size junk hinv hinv.1 le_rfl
  | addAt v i => exact inv_insert s v i junk hinv hok.1 hok.2
  | removeAt i => exact inv_delete s i junk hinv hok.1 hok.2
  | removeVal v => exact inv_remove s v junk hinv

lemma reachable_inv (s : DynArray) (h : Reachable s) : StateInv s := by
  induction h with
  | construct junk => exact inv_construct junk
  | step s op junk _ hok ih => exact inv_applyOp s op junk ih hok

/-! ### Concrete example states used by witnesses and counterexamples -/

/-- A fixed choice of indeterminate buffer contents. -/
def junk0 : ℤ → ℤ := fun _ => 0

/-- A full valid array: elements 0..9, size 10 = capacity, load 1. -/
def exampleFull : DynArray := ⟨1, 10, 10, fun j => j⟩

/-- A valid one-element array holding the value 7. -/
def exampleSingleton : DynArray := ⟨1/10, 1, 10, fun _ => 7⟩

/-- A valid array at the contraction boundary: size 6, capacity 20, load 3/10. -/
def exampleC1 : DynArray := ⟨3/10, 6, 20, fun j => j⟩

/-- A valid array one removal above the contraction boundary: size 7,
capacity 20, load 7/20. -/
def exampleC2 : DynArray := ⟨7/20, 7, 20, fun j => j⟩

/-- A valid array with elements 1..5, size 5, capacity 20, load 1/4. -/
def exampleC9 : DynArray := ⟨1/4, 5, 20, fun j => j + 1⟩

/-- A valid two-element array [3, 7] with capacity 20 and load 1/10, i.e.
already at or below the contraction threshold before any removal. -/
def exampleC4 : DynArray := ⟨1/10, 2, 20, fun j => if j = 0 then 3 else 7⟩

/-! ### The claims -/

/-- C3: for every valid array whose load is at least EXPANSION_POINT before an
insertion at a valid index, `insert_elem` first reallocates to a buffer of
`capacity * EXPANSION_FACTOR` (truncated) — exactly double, so capacity
strictly increases — copies the `length` existing elements in order, and only
then shifts and inserts into the new buffer: afterwards the element at `i` is
the new value, the elements previously at `[0, i)` are unchanged, those
previously at `[i, size)` sit one slot higher, and size has grown by one. -/
theorem claim_C3_insert_grows_before_shift (s : DynArray) (v i : ℤ)
    (junk : ℤ → ℤ) (hval : Valid s) (hfull : EXPANSION_POINT ≤ s.load)
    (h0 : 0 ≤ i) (h1 : i ≤ s.size) :
    (dynamic_array_insert_elem s v i (some junk)).1 = 0 ∧
    (dynamic_array_insert_elem s v i (some junk)).2.capacity =
      Int.floor (EXPANSION_FACTOR * (s.capacity : ℚ)) ∧
    (dynamic_array_insert_elem s v i (some junk)).2.capacity = 2 * s.capacity ∧
    s.capacity < (dynamic_array_insert_elem s v i (some junk)).2.capacity ∧
    (dynamic_array_insert_elem s v i (some junk)).2.size = s.size + 1 ∧
    (dynamic_array_insert_elem s v i (some junk)).2.array i = v ∧
    (∀ j, 0 ≤ j → j < i →
      (dynamic_array_insert_elem s v i (some junk)).2.array j = s.array j) ∧
    (∀ j, i ≤ j → j < s.size →
      (dynamic_array_insert_elem s v i (some junk)).2.array (j + 1) =
        s.array j) := by
  obtain ⟨c1, c2, c3, _, c5, c6, c7⟩ := insert_elem_some_spec s v i junk h0 h1
  rw [if_pos hfull] at c3
  have hpos : 0 < s.capacity := by
    obtain ⟨_, _, hic, _⟩ := hval
    unfold INIT_CAPACITY at hic
    omega
  refine ⟨c1, ?_, c3, by rw [c3]; omega, c2, c5, c6, c7⟩
  rw [c3, expansion_capacity_eq]

/-- Witness for C3 at the concrete full array `exampleFull`, inserting 99 at
index 0: the capacity doubles to 20 and index 0 afterwards holds 99. -/
theorem claim_C3_witness :
    Valid exampleFull ∧ EXPANSION_POINT ≤ exampleFull.load ∧
    (dynamic_array_insert_elem exampleFull 99 0 (some junk0)).2.capacity = 20 ∧
    (dynamic_array_insert_elem exampleFull 99 0 (some junk0)).2.array 0 = 99 := by
  have hval : Valid exampleFull := by
    refine ⟨?_, ?_, ?_, ?_⟩ <;> norm_num [exampleFull, INIT_CAPACITY, Valid]
  have hfull : EXPANSION_POINT ≤ exampleFull.load := by
    norm_num [exampleFull, EXPANSION_POINT]
  obtain ⟨c1, c2, c3, c4, c5, c6, c7⟩ :=
    claim_C3_insert_grows_before_shift exampleFull 99 0 junk0 hval hfull le_rfl
      (by norm_num [exampleFull])
  refine ⟨hval, hfull, ?_, c6⟩
  rw [c3]
  norm_num [exampleFull]

/-- C7: for every valid array and index `0 ≤ i ≤ size`, a successful InsertAt
makes the value the element at index `i`, leaves the elements previously at
`[0, i)` in place, moves each element previously at an index `≥ i` one index
higher (preserving order), and increments size by 1; reading index `i`
afterwards yields the inserted value. -/
theorem claim_C7_insert_at_effect (s : DynArray) (v i : ℤ) (junk : ℤ → ℤ)
    (hval : Valid s) (h0 : 0 ≤ i) (h1 : i ≤ s.size) :
    (dynamic_array_insert_elem s v i (some junk)).1 = 0 ∧
    (dynamic_array_insert_elem s v i (some junk)).2.size = s.size + 1 ∧
    (dynamic_array_insert_elem s v i (some junk)).2.array i = v ∧
    (∀ j, 0 ≤ j → j < i →
      (dynamic_array_insert_elem s v i (some junk)).2.array j = s.array j) ∧
    (∀ j, i ≤ j → j < s.size →
      (dynamic_array_insert_elem s v i (some junk)).2.array (j + 1) =
        s.array j) := by
  obtain ⟨c1, c2, _, _, c5, c6, c7⟩ := insert_elem_some_spec s v i junk h0 h1
  exact ⟨c1, c2, c5, c6, c7⟩

/-- Witness for C7 at the concrete one-element array `exampleSingleton`,
inserting 42 at index 0: afterwards index 0 holds 42, the old element 7 has
moved to index 1, and the size is 2. -/
theorem claim_C7_witness :
    Valid exampleSingleton ∧
    (dynamic_array_insert_elem exampleSingleton 42 0 (some junk0)).2.array 0 =
      42 ∧
    (dynamic_array_insert_elem exampleSingleton 42 0 (some junk0)).2.array 1 =
      7 ∧
    (dynamic_array_insert_elem exampleSingleton 42 0 (some junk0)).2.size =
      2 := by
  have hval : Valid exampleSingleton := by
    refine ⟨?_, ?_, ?_, ?_⟩ <;> norm_num [exampleSingleton, INIT_CAPACITY, Valid]
  obtain ⟨c1, c2, c5, c6, c7⟩ :=
    claim_C7_insert_at_effect exampleSingleton 42 0 junk0 hval le_rfl
      (by norm_num [exampleSingleton])
  refine ⟨hval, c5, ?_, ?_⟩
  · have h := c7 0 le_rfl (by norm_num [exampleSingleton])
    rw [show (0 : ℤ) + 1 = 1 by ring] at h
    rw [h]
    norm_num [exampleSingleton]
  · rw [c2]
    norm_num [exampleSingleton]

/-- C8: when an insertion requires growth (load at least EXPANSION_POINT) and
the reallocation fails, `insert_elem` returns the allocation error code 1 and
the array — length, capacity, load and every stored element — is exactly the
input array (strong exception safety). -/
theorem claim_C8_alloc_failure_unchanged (s : DynArray) (v i : ℤ)
    (hfull : EXPANSION_POINT ≤ s.load) :
    dynamic_array_insert_elem s v i none = (1, s) := by
  rw [dynamic_array_insert_elem, if_pos hfull]
  show (if (0 : ℤ) < (dynamic_array_expand s none).1 then dynamic_array_expand s none
    else insert_shift (dynamic_array_expand s none).2 v i) = (1, s)
  rw [show dynamic_array_expand s none = (1, s) from rfl]
  norm_num

/-- Witness for C8 at the concrete full array `exampleFull`: with a failing
allocation the insertion returns 1 and the array is unchanged. -/
theorem claim_C8_witness :
    EXPANSION_POINT ≤ exampleFull.load ∧
    dynamic_array_insert_elem exampleFull 99 0 none = (1, exampleFull) :=
  ⟨by norm_num [exampleFull, EXPANSION_POINT],
    claim_C8_alloc_failure_unchanged exampleFull 99 0
      (by norm_num [exampleFull, EXPANSION_POINT])⟩

/-- C5 counterexample: InsertAt(42, -1) on a freshly constructed (empty,
valid) array does not produce any defined failure: it returns the success
code 0, increments size to 1, and writes 42 at index -1 — outside the live
region and outside the allocated buffer `[0, capacity)` — silently corrupting
the structure instead of reporting an IndexError. -/
theorem claim_C5_counterexample :
    (dynamic_array_insert_elem (dynamic_array_construct junk0) 42 (-1)
      (some junk0)).1 = 0 ∧
    (dynamic_array_insert_elem (dynamic_array_construct junk0) 42 (-1)
      (some junk0)).2.size = 1 ∧
    (dynamic_array_insert_elem (dynamic_array_construct junk0) 42 (-1)
      (some junk0)).2.array (-1) = 42 := by
  have hexp : ¬EXPANSION_POINT ≤ (dynamic_array_construct junk0).load := by
    norm_num [dynamic_array_construct, EXPANSION_POINT]
  rw [insert_elem_of_no_expand _ _ _ _ hexp]
  exact ⟨rfl, rfl, rfl⟩

/-- C5 (amended): neither `insert_elem` nor `delete_elem` validates its index:
an out-of-range index is an unchecked documented precondition, and for every
state and every index whatsoever the operations return the success code 0
whenever no allocation fails — no IndexError (or any other defined failure)
exists in the code. -/
theorem claim_C5_no_index_error (s t : DynArray) (v i j : ℤ)
    (junk junk2 : ℤ → ℤ) :
    (dynamic_array_insert_elem s v i (some junk)).1 = 0 ∧
    (dynamic_array_delete_elem t j (some junk2)).1 = 0 := by
  constructor
  · by_cases hexp : EXPANSION_POINT ≤ s.load
    · rw [insert_elem_of_expand s v i junk hexp]; rfl
    · rw [insert_elem_of_no_expand s v i (some junk) hexp]; rfl
  · rw [delete_elem_eq]
    split_ifs with h
    · rfl
    · rfl

/-- C4 counterexample: on the valid one-element array [7], RemoveValue(7)
finds and removes the element (size drops to 0) yet returns 0 — the very same
return value RemoveValue(5) produces when nothing matches and the array is
left unchanged.  The return value is a status code, not the claimed
found/not-found boolean. -/
theorem claim_C4_counterexample :
    (dynamic_array_remove exampleSingleton 7 (some junk0)).1 = 0 ∧
    (dynamic_array_remove exampleSingleton 7 (some junk0)).2.size = 0 ∧
    dynamic_array_remove exampleSingleton 5 (some junk0) =
      (0, exampleSingleton) := by
  have hscan : remove_scan exampleSingleton.array 7 exampleSingleton.size 0
      exampleSingleton.size.toNat = some 0 := rfl
  have hnc : ¬(exampleSingleton.load ≤ CONTRACTION_POINT ∧
      INIT_CAPACITY < exampleSingleton.capacity) := by
    rintro ⟨-, hb⟩
    norm_num [exampleSingleton, INIT_CAPACITY] at hb
  obtain ⟨c1, c2, _, _, _, _⟩ :=
    delete_elem_nocontract_spec exampleSingleton 0 (some junk0) le_rfl
      (by norm_num [exampleSingleton]) hnc
  rw [remove_found exampleSingleton 7 (some junk0) 0 hscan]
  refine ⟨c1, by rw [c2]; norm_num [exampleSingleton], ?_⟩
  refine remove_not_found exampleSingleton 5 (some junk0) ?_
  intro j hj0 hj1
  norm_num [exampleSingleton]

/-- C4 (amended): RemoveValue scans from index 0; with a successful
allocation its return value is the status code 0 in every case, so it never
indicates whether a match was found.  When no element of the live region
equals the value it returns 0 with the array entirely unchanged.  When the
first match is at index `idx` it invokes the delete helper there, and the
stale pre-removal contraction test splits the outcome: if the stored load is
above CONTRACTION_POINT or the capacity is at the INIT_CAPACITY floor, the
first match is genuinely removed — later elements shift one slot toward the
head and size decrements by 1; but if the stored load is at most
CONTRACTION_POINT and the capacity exceeds INIT_CAPACITY, the helper
contracts (capacity drops to the truncated half) without decrementing size,
so the call reports 0 while the length — and hence the logical content — is
not reduced at all (the same defect as C1). -/
theorem claim_C4_remove_spec (s : DynArray) (v : ℤ) (junk : ℤ → ℤ)
    (idx : ℤ) (hval : Valid s) :
    (dynamic_array_remove s v (some junk)).1 = 0 ∧
    ((∀ j, 0 ≤ j → j < s.size → s.array j ≠ v) →
      dynamic_array_remove s v (some junk) = (0, s)) ∧
    (0 ≤ idx → idx < s.size → s.array idx = v →
      (∀ j, 0 ≤ j → j < idx → s.array j ≠ v) →
      (¬(s.load ≤ CONTRACTION_POINT ∧ INIT_CAPACITY < s.capacity) →
        (dynamic_array_remove s v (some junk)).2.size = s.size - 1 ∧
        (∀ j, j < idx →
          (dynamic_array_remove s v (some junk)).2.array j = s.array j) ∧
        (∀ j, idx ≤ j → j < s.size - 1 →
          (dynamic_array_remove s v (some junk)).2.array j =
            s.array (j + 1))) ∧
      ((s.load ≤ CONTRACTION_POINT ∧ INIT_CAPACITY < s.capacity) →
        (dynamic_array_remove s v (some junk)).2.size = s.size ∧
        (dynamic_array_remove s v (some junk)).2.capacity =
          Int.floor (CONTRACTION_FACTOR * (s.capacity : ℚ)))) := by
  refine ⟨?_, ?_, ?_⟩
  · cases hscan : remove_scan s.array v s.size 0 s.size.toNat with
    | none =>
      rw [dynamic_array_remove, hscan]
    | some k =>
      rw [remove_found s v (some junk) k hscan, delete_elem_eq]
      split_ifs with h
      · rfl
      · rfl
  · intro h
    exact remove_not_found s v (some junk) h
  · intro h0 h1 h2 h3
    have hscan : remove_scan s.array v s.size 0 s.size.toNat = some idx :=
      remove_scan_eq_some s.array v s.size s.size.toNat 0 idx h0 h1 h2 h3
        (by have := hval.1; omega)
    constructor
    · intro hnc
      rw [remove_found s v (some junk) idx hscan]
      obtain ⟨-, c2, -, -, c5, c6⟩ :=
        delete_elem_nocontract_spec s idx (some junk) h0 h1 hnc
      exact ⟨c2, c5, c6⟩
    · intro hc
      rw [remove_found s v (some junk) idx hscan]
      obtain ⟨-, c2, c3, -⟩ :=
        delete_elem_contract_some_spec s idx junk hc.1 hc.2
      exact ⟨c2, c3⟩

/-- Witness for the amended C4, exercising all three cases concretely: on the
one-element array [7], removing the absent value 5 returns (0, unchanged
array) and removing the present value 7 drops the size by one; on the
two-element array [3, 7] with capacity 20 (load 1/10, below the contraction
threshold), removing the present value 7 returns 0 yet leaves size 2 — found,
reported success, not removed. -/
theorem claim_C4_witness :
    Valid exampleSingleton ∧ Valid exampleC4 ∧
    dynamic_array_remove exampleSingleton 5 (some junk0) =
      (0, exampleSingleton) ∧
    (dynamic_array_remove exampleSingleton 7 (some junk0)).2.size =
      exampleSingleton.size - 1 ∧
    (dynamic_array_remove exampleC4 7 (some junk0)).1 = 0 ∧
    (dynamic_array_remove exampleC4 7 (some junk0)).2.size = 2 := by
  have hval : Valid exampleSingleton := by
    refine ⟨?_, ?_, ?_, ?_⟩ <;> norm_num [exampleSingleton, INIT_CAPACITY, Valid]
  have hval4 : Valid exampleC4 := by
    refine ⟨?_, ?_, ?_, ?_⟩ <;> norm_num [exampleC4, INIT_CAPACITY, Valid]
  have hnc : ¬(exampleSingleton.load ≤ CONTRACTION_POINT ∧
      INIT_CAPACITY < exampleSingleton.capacity) := by
    rintro ⟨-, hb⟩
    norm_num [exampleSingleton, INIT_CAPACITY] at hb
  refine ⟨hval, hval4, ?_, ?_, ?_, ?_⟩
  · refine (claim_C4_remove_spec exampleSingleton 5 junk0 0 hval).2.1 ?_
    intro j hj0 hj1
    norm_num [exampleSingleton]
  · have h := ((claim_C4_remove_spec exampleSingleton 7 junk0 0 hval).2.2
      le_rfl (by norm_num [exampleSingleton]) (by norm_num [exampleSingleton])
      (fun j hj0 hj1 => absurd hj1 (by omega))).1 hnc
    exact h.1
  · exact (claim_C4_remove_spec exampleC4 7 junk0 1 hval4).1
  · have h := ((claim_C4_remove_spec exampleC4 7 junk0 1 hval4).2.2
      (by norm_num) (by norm_num [exampleC4]) (by norm_num [exampleC4])
      ?_).2 ?_
    · rw [h.1]
      norm_num [exampleC4]
    · intro j hj0 hj1
      have hj : j = 0 := by omega
      rw [hj]
      norm_num [exampleC4]
    · constructor
      · norm_num [exampleC4, CONTRACTION_POINT]
      · norm_num [exampleC4, INIT_CAPACITY]

/-- C1 (code bug): on the valid array `exampleC1` (size 6, capacity 20, load
3/10) the in-range removal RemoveAt(0) succeeds (status 0) and takes the
contraction branch (capacity halves to 10), but `delete_elem` returns from
that branch before the `size -= 1` line, so size is still 6 — the length is
not decremented by 1 as the claim (and the function's own documentation)
requires. -/
theorem claim_C1_contracting_removal_skips_decrement :
    Valid exampleC1 ∧
    (dynamic_array_remove_at exampleC1 0 (some junk0)).1 = 0 ∧
    (dynamic_array_remove_at exampleC1 0 (some junk0)).2.capacity = 10 ∧
    (dynamic_array_remove_at exampleC1 0 (some junk0)).2.size = 6 := by
  have hval : Valid exampleC1 := by
    refine ⟨?_, ?_, ?_, ?_⟩ <;> norm_num [exampleC1, INIT_CAPACITY, Valid]
  have hc : exampleC1.load ≤ CONTRACTION_POINT := by
    norm_num [exampleC1, CONTRACTION_POINT]
  have hcap : INIT_CAPACITY < exampleC1.capacity := by
    norm_num [exampleC1, INIT_CAPACITY]
  obtain ⟨c1, c2, c3, _⟩ :=
    delete_elem_contract_some_spec exampleC1 0 junk0 hc hcap
  refine ⟨hval, c1, ?_, ?_⟩
  · rw [show (dynamic_array_remove_at exampleC1 0 (some junk0)).2.capacity =
      (dynamic_array_delete_elem exampleC1 0 (some junk0)).2.capacity from rfl,
      c3]
    norm_num [exampleC1, CONTRACTION_FACTOR]
  · rw [show (dynamic_array_remove_at exampleC1 0 (some junk0)).2.size =
      (dynamic_array_delete_elem exampleC1 0 (some junk0)).2.size from rfl, c2]
    norm_num [exampleC1]

/-- C2 (code bug): on the valid array `exampleC2` (size 7, capacity 20, load
7/20) the in-range removal RemoveAt(0) commits with post-removal load exactly
3/10 = CONTRACTION_POINT and capacity 20 > INIT_CAPACITY, so by the claim the
array must contract to capacity 10; but the code evaluated the shrink
condition on the stale pre-removal load 7/20 > 3/10 — before length and load
were updated — and the capacity stays 20. -/
theorem claim_C2_shrink_checks_stale_load :
    Valid exampleC2 ∧
    (dynamic_array_remove_at exampleC2 0 (some junk0)).1 = 0 ∧
    (dynamic_array_remove_at exampleC2 0 (some junk0)).2.size = 6 ∧
    (dynamic_array_remove_at exampleC2 0 (some junk0)).2.load =
      CONTRACTION_POINT ∧
    INIT_CAPACITY < (dynamic_array_remove_at exampleC2 0 (some junk0)).2.capacity ∧
    (dynamic_array_remove_at exampleC2 0 (some junk0)).2.capacity = 20 := by
  have hval : Valid exampleC2 := by
    refine ⟨?_, ?_, ?_, ?_⟩ <;> norm_num [exampleC2, INIT_CAPACITY, Valid]
  have hnc : ¬(exampleC2.load ≤ CONTRACTION_POINT ∧
      INIT_CAPACITY < exampleC2.capacity) := by
    rintro ⟨ha, -⟩
    norm_num [exampleC2, CONTRACTION_POINT] at ha
  obtain ⟨c1, c2, c3, c4, _, _⟩ :=
    delete_elem_nocontract_spec exampleC2 0 (some junk0) le_rfl
      (by norm_num [exampleC2]) hnc
  refine ⟨hval, c1, ?_, ?_, ?_, ?_⟩
  · rw [show (dynamic_array_remove_at exampleC2 0 (some junk0)).2.size =
      (dynamic_array_delete_elem exampleC2 0 (some junk0)).2.size from rfl, c2]
    norm_num [exampleC2]
  · rw [show (dynamic_array_remove_at exampleC2 0 (some junk0)).2.load =
      (dynamic_array_delete_elem exampleC2 0 (some junk0)).2.load from rfl, c4]
    norm_num [exampleC2, CONTRACTION_POINT]
  · rw [show (dynamic_array_remove_at exampleC2 0 (some junk0)).2.capacity =
      (dynamic_array_delete_elem exampleC2 0 (some junk0)).2.capacity from rfl,
      c3]
    norm_num [exampleC2, INIT_CAPACITY]
  · rw [show (dynamic_array_remove_at exampleC2 0 (some junk0)).2.capacity =
      (dynamic_array_delete_elem exampleC2 0 (some junk0)).2.capacity from rfl,
      c3]
    norm_num [exampleC2]

/-- C9 (code bug): on the valid array `exampleC9` (elements 1..5, size 5,
capacity 20), with 100 not present, Add(100) followed by RemoveValue(100)
both succeed (status 0), yet the final size is 6, not the pre-Add size 5:
the RemoveValue lands on the appended last element while the post-Add load is
exactly 3/10, so the delete helper takes the contraction branch and never
decrements size — the round-trip does not restore the pre-Add length. -/
theorem claim_C9_roundtrip_not_restored :
    Valid exampleC9 ∧
    (∀ j, 0 ≤ j → j < exampleC9.size → exampleC9.array j ≠ 100) ∧
    (dynamic_array_add exampleC9 100 (some junk0)).1 = 0 ∧
    (dynamic_array_remove (dynamic_array_add exampleC9 100 (some junk0)).2 100
      (some junk0)).1 = 0 ∧
    (dynamic_array_remove (dynamic_array_add exampleC9 100 (some junk0)).2 100
      (some junk0)).2.size = 6 := by
  have hval : Valid exampleC9 := by
    refine ⟨?_, ?_, ?_, ?_⟩ <;> norm_num [exampleC9, INIT_CAPACITY, Valid]
  have hnp : ∀ j, 0 ≤ j → j < exampleC9.size → exampleC9.array j ≠ 100 := by
    intro j hj0 hj1
    have hj5 : j < 5 := by simpa [exampleC9] using hj1
    simp only [exampleC9]
    omega
  have hexp : ¬EXPANSION_POINT ≤ exampleC9.load := by
    norm_num [exampleC9, EXPANSION_POINT]
  have hA : dynamic_array_add exampleC9 100 (some junk0) =
      insert_shift exampleC9 100 exampleC9.size := by
    rw [dynamic_array_add, insert_elem_of_no_expand _ _ _ _ hexp]
  rw [hA]
  obtain ⟨c1, c2, c3, c4, c5, c6, c7⟩ :=
    insert_shift_spec exampleC9 100 exampleC9.size (by norm_num [exampleC9])
      le_rfl
  have hBsz : (insert_shift exampleC9 100 exampleC9.size).2.size = 6 := by
    rw [c2]; norm_num [exampleC9]
  have hBcap : (insert_shift exampleC9 100 exampleC9.size).2.capacity = 20 := by
    rw [c3]; norm_num [exampleC9]
  have hBload : (insert_shift exampleC9 100 exampleC9.size).2.load ≤
      CONTRACTION_POINT := by
    rw [c4]; norm_num [exampleC9, CONTRACTION_POINT]
  have hB5 : (insert_shift exampleC9 100 exampleC9.size).2.array 5 = 100 := by
    have h := c5
    rwa [show exampleC9.size = 5 from rfl] at h
  have hBj : ∀ j, 0 ≤ j → j < 5 →
      (insert_shift exampleC9 100 exampleC9.size).2.array j = j + 1 := by
    intro j hj0 hj5
    have h := c6 j (by rw [show exampleC9.size = 5 from rfl]; omega)
    rw [h]
    simp [exampleC9]
  have hscan : remove_scan (insert_shift exampleC9 100 exampleC9.size).2.array
      100 (insert_shift exampleC9 100 exampleC9.size).2.size 0
      (insert_shift exampleC9 100 exampleC9.size).2.size.toNat = some 5 := by
    refine remove_scan_eq_some _ 100 _ _ 0 5 (by norm_num)
      (by rw [hBsz]; norm_num) hB5 ?_ ?_
    · intro j hj0 hj5
      rw [hBj j hj0 hj5]
      omega
    · have ht : (insert_shift exampleC9 100 exampleC9.size).2.size.toNat = 6 := by
        rw [hBsz]
        simp
      rw [ht]
      norm_num
  rw [remove_found _ 100 (some junk0) 5 hscan]
  obtain ⟨d1, d2, -, -⟩ :=
    delete_elem_contract_some_spec
      (insert_shift exampleC9 100 exampleC9.size).2 5 junk0 hBload
      (by rw [hBcap]; norm_num [INIT_CAPACITY])
  exact ⟨hval, hnp, c1, d1, by rw [d2, hBsz]⟩

/-- C6: every state reached from `construct` by a sequence of Add / InsertAt /
RemoveAt / RemoveValue operations with in-contract indices and successful
allocations (so no operation fails) satisfies, after each operation,
`0 ≤ length ≤ capacity`, `capacity ≥ INIT_CAPACITY`, and
`load = length / capacity` (exactly, in the rational model). -/
theorem claim_C6_sequence_invariant (s : DynArray) (h : Reachable s) :
    0 ≤ s.size ∧ s.size ≤ s.capacity ∧ INIT_CAPACITY ≤ s.capacity ∧
    s.load = (s.size : ℚ) / (s.capacity : ℚ) := by
  obtain ⟨h1, h2, h3, k, hcap⟩ := reachable_inv s h
  exact ⟨h1, h2, init_le_of_pow s k hcap, h3⟩

/-- Witness for C6 at the concrete reachable state obtained by constructing
and then executing Add(5) with a successful allocation. -/
theorem claim_C6_witness :
    0 ≤ ((applyOp (dynamic_array_construct junk0) (some junk0)
      (Op.add 5)).2).size ∧
    ((applyOp (dynamic_array_construct junk0) (some junk0)
      (Op.add 5)).2).size ≤
      ((applyOp (dynamic_array_construct junk0) (some junk0)
        (Op.add 5)).2).capacity ∧
    INIT_CAPACITY ≤ ((applyOp (dynamic_array_construct junk0) (some junk0)
      (Op.add 5)).2).capacity ∧
    ((applyOp (dynamic_array_construct junk0) (some junk0)
      (Op.add 5)).2).load =
      (((applyOp (dynamic_array_construct junk0) (some junk0)
        (Op.add 5)).2).size : ℚ) /
        (((applyOp (dynamic_array_construct junk0) (some junk0)
          (Op.add 5)).2).capacity : ℚ) :=
  claim_C6_sequence_invariant _
    (Reachable.step _ _ junk0 (Reachable.construct junk0) trivial)

/-- C10: after construction and any sequence of successful in-contract
operations the capacity is INIT_CAPACITY times a power of two (10, 20, 40,
...) — expansion exactly doubles it, contraction (guarded by
`capacity > INIT_CAPACITY`) exactly halves it — so the capacity never leaves
that set and never drops below 10. -/
theorem claim_C10_capacity_power_of_two (s : DynArray) (h : Reachable s) :
    (∃ k : ℕ, s.capacity = INIT_CAPACITY * 2 ^ k) ∧
    INIT_CAPACITY ≤ s.capacity := by
  obtain ⟨-, -, -, k, hcap⟩ := reachable_inv s h
  exact ⟨⟨k, hcap⟩, init_le_of_pow s k hcap⟩

/-- Witness for C10 at the concrete reachable state obtained by constructing
and then executing InsertAt(3, 0) with a successful allocation. -/
theorem claim_C10_witness :
    INIT_CAPACITY ≤
      ((applyOp (dynamic_array_construct junk0) (some junk0)
        (Op.addAt 3 0)).2).capacity :=
  (claim_C10_capacity_power_of_two _
    (Reachable.step _ _ junk0 (Reachable.construct junk0)
      (by exact ⟨le_rfl, le_rfl⟩))).2
